import Mathlib

-- Verification development for the round-scheduling core of the elixxir
-- comms repository: the WaitingRounds queue (network/dataStructures/
-- waitingRounds.go) and the RoundEvents callback dispatcher
-- (network/dataStructures/roundEvents.go).
--
-- All definitions are shallow embeddings translated from the Go source.
-- The container/list doubly linked list of WaitingRounds is modelled as a
-- Lean list held front-to-back; the Go code's back-to-front scans are
-- embedded as structural recursion over the reversed list.

set_option maxRecDepth 4000

namespace ElixxirComms

-- states.QUEUED from gitlab.com/elixxir/primitives/states
-- (PENDING=0, PRECOMPUTING=1, STANDBY=2, QUEUED=3, REALTIME=4,
--  COMPLETED=5, FAILED=6, NUM_STATES=7); the core treats the value
-- opaquely apart from the QUEUED special case.
def statesQUEUED : Nat := 3

-- current.REALTIME from gitlab.com/elixxir/primitives/current, the index
-- into RoundInfo.Timestamps read by getTime.
def currentREALTIME : Nat := 4

-- pb.RoundInfo (mixmessages), restricted to the fields the core reads:
-- ID, State and the per-stage Timestamps slice.  Go's uint64/uint32
-- values are embedded as Nat; the core only compares them, never
-- overflows them.
structure RoundInfo where
  ID : Nat
  State : Nat
  Timestamps : List Nat
deriving DecidableEq

namespace WaitingRounds

-- getTime(round) = round.Timestamps[current.REALTIME].  A missing index
-- is read as 0 (the Go code always receives slices long enough to hold
-- the REALTIME stage).
def getTime (round : RoundInfo) : Nat :=
  round.Timestamps.getD currentREALTIME 0

-- The back-to-front scan of Insert's QUEUED branch, acting on the
-- reversed round list (head of the argument = back of the queue):
-- InsertAfter(newRound, e) at the first e (from the back) with
-- getTime(newRound) > getTime(e), else PushFront.
def insertRev (newRound : RoundInfo) : List RoundInfo → List RoundInfo
  | [] => [newRound]
  | e :: prev =>
      if getTime e < getTime newRound then newRound :: e :: prev
      else e :: insertRev newRound prev

-- The back-to-front scan of remove, acting on the reversed round list:
-- Remove(e) at the first e (from the back) whose ID matches.
def removeRev (newRound : RoundInfo) : List RoundInfo → List RoundInfo
  | [] => []
  | e :: prev =>
      if e.ID = newRound.ID then prev
      else e :: removeRev newRound prev

-- WaitingRounds.remove
def remove (rounds : List RoundInfo) (newRound : RoundInfo) : List RoundInfo :=
  (removeRev newRound rounds.reverse).reverse

-- WaitingRounds.Insert: QUEUED rounds are placed by the back-to-front
-- timestamp scan; any other state routes to remove.
def Insert (rounds : List RoundInfo) (newRound : RoundInfo) : List RoundInfo :=
  if newRound.State = statesQUEUED then
    (insertRev newRound rounds.reverse).reverse
  else remove rounds newRound

-- WaitingRounds.Len
def Len (rounds : List RoundInfo) : Nat := rounds.length

-- WaitingRounds.GetSlice: copies the list front to back.
def GetSlice (rounds : List RoundInfo) : List RoundInfo := rounds

-- WaitingRounds.getFurthest: the last element of the list, none if empty.
def getFurthest (rounds : List RoundInfo) : Option RoundInfo :=
  rounds.getLast?

-- The queue contents after a sequence of Insert calls starting from the
-- empty queue of NewWaitingRounds.
def applyInserts (ops : List RoundInfo) : List RoundInfo :=
  ops.foldl Insert []

-- Sortedness of the queue by realtime timestamp, front to back.
def SortedLE (l : List RoundInfo) : Prop :=
  l.Pairwise (fun a b => getTime a ≤ getTime b)

-- Reverse-sortedness (back of the queue first).
def SortedGE (l : List RoundInfo) : Prop :=
  l.Pairwise (fun a b => getTime b ≤ getTime a)

theorem insertRev_nil (newRound : RoundInfo) :
    insertRev newRound [] = [newRound] := rfl

theorem insertRev_cons (newRound e : RoundInfo) (prev : List RoundInfo) :
    insertRev newRound (e :: prev) =
      if getTime e < getTime newRound then newRound :: e :: prev
      else e :: insertRev newRound prev := rfl

theorem removeRev_nil (newRound : RoundInfo) :
    removeRev newRound [] = [] := rfl

theorem removeRev_cons (newRound e : RoundInfo) (prev : List RoundInfo) :
    removeRev newRound (e :: prev) =
      if e.ID = newRound.ID then prev
      else e :: removeRev newRound prev := rfl

theorem mem_insertRev {x newRound : RoundInfo} :
    ∀ {l : List RoundInfo}, x ∈ insertRev newRound l → x = newRound ∨ x ∈ l := by
  intro l
  induction l with
  | nil =>
      intro h
      rw [insertRev_nil, List.mem_singleton] at h
      exact Or.inl h
  | cons e prev ih =>
      intro h
      rw [insertRev_cons] at h
      by_cases hc : getTime e < getTime newRound
      · rw [if_pos hc, List.mem_cons] at h
        rcases h with h | h
        · exact Or.inl h
        · exact Or.inr h
      · rw [if_neg hc, List.mem_cons] at h
        rcases h with h | h
        · exact Or.inr (List.mem_cons.mpr (Or.inl h))
        · rcases ih h with h' | h'
          · exact Or.inl h'
          · exact Or.inr (List.mem_cons.mpr (Or.inr h'))

theorem sortedGE_insertRev {newRound : RoundInfo} :
    ∀ {l : List RoundInfo}, SortedGE l → SortedGE (insertRev newRound l) := by
  intro l
  induction l with
  | nil =>
      intro _
      simp [insertRev, SortedGE]
  | cons e prev ih =>
      intro h
      rw [SortedGE, List.pairwise_cons] at h
      obtain ⟨he, hprev⟩ := h
      rw [insertRev_cons]
      by_cases hlt : getTime e < getTime newRound
      · rw [if_pos hlt, SortedGE, List.pairwise_cons]
        constructor
        · intro b hb
          rw [List.mem_cons] at hb
          rcases hb with hb | hb
          · subst hb; exact le_of_lt hlt
          · exact le_trans (he b hb) (le_of_lt hlt)
        · rw [List.pairwise_cons]
          exact ⟨he, hprev⟩
      · rw [if_neg hlt, SortedGE, List.pairwise_cons]
        constructor
        · intro b hb
          rcases mem_insertRev hb with hb' | hb'
          · subst hb'; exact not_lt.mp hlt
          · exact he b hb'
        · exact ih hprev

theorem removeRev_sublist (newRound : RoundInfo) :
    ∀ l : List RoundInfo, List.Sublist (removeRev newRound l) l := by
  intro l
  induction l with
  | nil => rw [removeRev_nil]
  | cons e prev ih =>
      rw [removeRev_cons]
      by_cases hc : e.ID = newRound.ID
      · rw [if_pos hc]
        exact (List.Sublist.refl prev).cons e
      · rw [if_neg hc]
        exact ih.cons₂ e

theorem sortedLE_iff_sortedGE_reverse {l : List RoundInfo} :
    SortedLE l ↔ SortedGE l.reverse := by
  rw [SortedLE, SortedGE, List.pairwise_reverse]

theorem sortedLE_insert {rounds : List RoundInfo} (newRound : RoundInfo)
    (h : SortedLE rounds) : SortedLE (Insert rounds newRound) := by
  rw [Insert]
  split
  · rw [sortedLE_iff_sortedGE_reverse, List.reverse_reverse]
    exact sortedGE_insertRev (sortedLE_iff_sortedGE_reverse.mp h)
  · rw [remove, sortedLE_iff_sortedGE_reverse, List.reverse_reverse]
    exact List.Pairwise.sublist (removeRev_sublist newRound rounds.reverse)
      (sortedLE_iff_sortedGE_reverse.mp h)

theorem sortedLE_foldl_insert (ops : List RoundInfo) :
    ∀ {init : List RoundInfo}, SortedLE init → SortedLE (ops.foldl Insert init) := by
  induction ops with
  | nil => intro init h; exact h
  | cons r rest ih =>
      intro init h
      exact ih (sortedLE_insert r h)

theorem sortedLE_applyInserts (ops : List RoundInfo) :
    SortedLE (applyInserts ops) :=
  sortedLE_foldl_insert ops (by simp [SortedLE])

theorem insertRev_length (newRound : RoundInfo) :
    ∀ l : List RoundInfo, (insertRev newRound l).length = l.length + 1 := by
  intro l
  induction l with
  | nil => rw [insertRev_nil]; rfl
  | cons e prev ih =>
      rw [insertRev_cons]
      by_cases hc : getTime e < getTime newRound
      · rw [if_pos hc]; rfl
      · rw [if_neg hc, List.length_cons, List.length_cons, ih]

theorem removeRev_eq_of_no_match {newRound : RoundInfo} :
    ∀ {l : List RoundInfo}, (∀ e ∈ l, e.ID ≠ newRound.ID) →
      removeRev newRound l = l := by
  intro l
  induction l with
  | nil => intro _; rw [removeRev_nil]
  | cons e prev ih =>
      intro h
      rw [removeRev_cons, if_neg (h e (List.mem_cons_self e prev)),
        ih (fun x hx => h x (List.mem_cons_of_mem e hx))]

theorem removeRev_length_of_match {newRound : RoundInfo} :
    ∀ {l : List RoundInfo}, (∃ e ∈ l, e.ID = newRound.ID) →
      (removeRev newRound l).length + 1 = l.length := by
  intro l
  induction l with
  | nil => intro h; simp at h
  | cons e prev ih =>
      intro h
      rw [removeRev_cons]
      by_cases hc : e.ID = newRound.ID
      · rw [if_pos hc, List.length_cons]
      · rw [if_neg hc, List.length_cons, List.length_cons]
        have hprev : ∃ x ∈ prev, x.ID = newRound.ID := by
          rcases h with ⟨x, hx, hid⟩
          rw [List.mem_cons] at hx
          rcases hx with hx | hx
          · exact absurd (hx ▸ hid) hc
          · exact ⟨x, hx, hid⟩
        rw [ih hprev]

theorem removeRev_countP_of_match {newRound : RoundInfo} :
    ∀ {l : List RoundInfo}, (∃ e ∈ l, e.ID = newRound.ID) →
      (removeRev newRound l).countP (fun e => e.ID == newRound.ID) + 1 =
        l.countP (fun e => e.ID == newRound.ID) := by
  intro l
  induction l with
  | nil => intro h; simp at h
  | cons e prev ih =>
      intro h
      rw [removeRev_cons]
      by_cases hc : e.ID = newRound.ID
      · rw [if_pos hc, List.countP_cons_of_pos]
        exact decide_eq_true hc
      · rw [if_neg hc, List.countP_cons_of_neg, List.countP_cons_of_neg]
        · have hprev : ∃ x ∈ prev, x.ID = newRound.ID := by
            rcases h with ⟨x, hx, hid⟩
            rw [List.mem_cons] at hx
            rcases hx with hx | hx
            · exact absurd (hx ▸ hid) hc
            · exact ⟨x, hx, hid⟩
          exact ih hprev
        · simpa using hc
        · simpa using hc

theorem countP_reverse (p : RoundInfo → Bool) :
    ∀ l : List RoundInfo, l.reverse.countP p = l.countP p := by
  intro l
  induction l with
  | nil => rfl
  | cons e prev ih =>
      rw [List.reverse_cons, List.countP_append, List.countP_cons, ih,
        List.countP_cons, List.countP_nil]
      omega

theorem insertRev_append_of_ge {n : RoundInfo} :
    ∀ {l1 : List RoundInfo} (l2 : List RoundInfo),
      (∀ e ∈ l1, getTime n ≤ getTime e) →
      insertRev n (l1 ++ l2) = l1 ++ insertRev n l2 := by
  intro l1
  induction l1 with
  | nil => intro l2 _; rfl
  | cons e t ih =>
      intro l2 h
      rw [List.cons_append, insertRev_cons,
        if_neg (not_lt.mpr (h e (List.mem_cons_self e t))), List.cons_append,
        ih l2 (fun x hx => h x (List.mem_cons_of_mem e hx))]

theorem insertRev_of_all_lt {n : RoundInfo} :
    ∀ {l : List RoundInfo}, (∀ e ∈ l, getTime e < getTime n) →
      insertRev n l = n :: l := by
  intro l
  cases l with
  | nil => intro _; rfl
  | cons e t =>
      intro h
      rw [insertRev_cons, if_pos (h e (List.mem_cons_self e t))]

-- Inserting the same QUEUED round id twice: the Go Insert only removes on
-- the non-QUEUED branch, so the second insertion of a round already in
-- the queue leaves the old entry in place and the id appears twice.
def rdup : RoundInfo := RoundInfo.mk 1 statesQUEUED [0, 0, 0, 0, 5]

/-- C1 counterexample: inserting the QUEUED round `rdup` (id 1) twice into
the empty queue leaves two entries with id 1 in the queue, refuting the
claim that the queue never holds more than one entry per round id. -/
theorem insert_duplicate_id_counterexample :
    ((applyInserts [rdup, rdup]).countP (fun e => e.ID == 1) = 2) ∧
      rdup.State = statesQUEUED := by decide

/-- C1 amended: the QUEUED branch of Insert never removes anything: it
always grows the queue by exactly one entry, even when a round with the
same id (in particular the identical QUEUED round) is already present, so
re-insertion can leave two entries for one id.  Only a non-QUEUED insert
removes an existing entry for the id. -/
theorem insert_queued_appends_without_removal (rounds : List RoundInfo)
    (n : RoundInfo) (hq : n.State = statesQUEUED) :
    Len (Insert rounds n) = Len rounds + 1 := by
  rw [Insert, if_pos hq, Len, Len, List.length_reverse, insertRev_length,
    List.length_reverse]

/-- Witness for the amended C1 theorem: re-inserting `rdup` into a queue
already holding `rdup` grows the queue from one entry to two. -/
theorem insert_queued_appends_without_removal_witness :
    rdup.State = statesQUEUED ∧ Len (Insert [rdup] rdup) = Len [rdup] + 1 :=
  ⟨by decide, insert_queued_appends_without_removal [rdup] rdup (by decide)⟩

/-- C3: for every sequence of Insert calls with QUEUED rounds starting
from the empty queue, GetSlice returns the entries in non-decreasing
order of their realtime timestamp. -/
theorem getSlice_sorted_by_realtime (ops : List RoundInfo)
    (_hq : ∀ r ∈ ops, r.State = statesQUEUED) :
    List.Pairwise (fun a b => getTime a ≤ getTime b)
      (GetSlice (applyInserts ops)) :=
  sortedLE_applyInserts ops

/-- Witness for C3: two QUEUED rounds inserted out of timestamp order come
back from GetSlice sorted by realtime timestamp. -/
theorem getSlice_sorted_by_realtime_witness :
    (∀ r ∈ [RoundInfo.mk 4 statesQUEUED [0, 0, 0, 0, 9],
        RoundInfo.mk 5 statesQUEUED [0, 0, 0, 0, 2]], r.State = statesQUEUED) ∧
      List.Pairwise (fun a b => getTime a ≤ getTime b)
        (GetSlice (applyInserts [RoundInfo.mk 4 statesQUEUED [0, 0, 0, 0, 9],
          RoundInfo.mk 5 statesQUEUED [0, 0, 0, 0, 2]])) :=
  ⟨by decide, getSlice_sorted_by_realtime _ (by decide)⟩

/-- C7: Insert called with a non-QUEUED round removes an entry carrying
that round id when one is present — the length and the number of entries
with that id both drop by exactly one — and leaves the queue unchanged
when no entry with that id is present. -/
theorem insert_nonqueued_removes (rounds : List RoundInfo) (n : RoundInfo)
    (hs : n.State ≠ statesQUEUED) :
    ((∃ e ∈ rounds, e.ID = n.ID) →
        Len (Insert rounds n) + 1 = Len rounds ∧
        (Insert rounds n).countP (fun e => e.ID == n.ID) + 1 =
          rounds.countP (fun e => e.ID == n.ID)) ∧
    ((∀ e ∈ rounds, e.ID ≠ n.ID) → Insert rounds n = rounds) := by
  rw [Insert, if_neg hs, remove]
  constructor
  · intro hex
    have hex' : ∃ e ∈ rounds.reverse, e.ID = n.ID := by
      rcases hex with ⟨x, hx, hid⟩
      exact ⟨x, List.mem_reverse.mpr hx, hid⟩
    constructor
    · rw [Len, Len, List.length_reverse, removeRev_length_of_match hex',
        List.length_reverse]
    · rw [countP_reverse, removeRev_countP_of_match hex', countP_reverse]
  · intro hall
    rw [removeRev_eq_of_no_match
        (fun x hx => hall x (List.mem_reverse.mp hx)),
      List.reverse_reverse]

/-- Witness for C7: a non-QUEUED update for id 1 removes the queued entry
with id 1 and a non-QUEUED update for an absent id is a no-op. -/
theorem insert_nonqueued_removes_witness :
    (RoundInfo.mk 1 0 [0, 0, 0, 0, 5]).State ≠ statesQUEUED ∧
      (((∃ e ∈ [rdup], e.ID = (RoundInfo.mk 1 0 [0, 0, 0, 0, 5]).ID) →
          Len (Insert [rdup] (RoundInfo.mk 1 0 [0, 0, 0, 0, 5])) + 1 =
            Len [rdup] ∧
          (Insert [rdup] (RoundInfo.mk 1 0 [0, 0, 0, 0, 5])).countP
              (fun e => e.ID == (RoundInfo.mk 1 0 [0, 0, 0, 0, 5]).ID) + 1 =
            ([rdup] : List RoundInfo).countP
              (fun e => e.ID == (RoundInfo.mk 1 0 [0, 0, 0, 0, 5]).ID)) ∧
        ((∀ e ∈ [rdup], e.ID ≠ (RoundInfo.mk 1 0 [0, 0, 0, 0, 5]).ID) →
          Insert [rdup] (RoundInfo.mk 1 0 [0, 0, 0, 0, 5]) = [rdup])) :=
  ⟨by decide, insert_nonqueued_removes [rdup] _ (by decide)⟩

-- Two distinct QUEUED rounds with equal realtime timestamps, arriving in
-- the order rTieA then rTieB.
def rTieA : RoundInfo := RoundInfo.mk 21 statesQUEUED [0, 0, 0, 0, 7]
def rTieB : RoundInfo := RoundInfo.mk 22 statesQUEUED [0, 0, 0, 0, 7]

/-- C10 counterexample: rTieB arrives after rTieA with the same realtime
timestamp, yet ends up in front of rTieA — the later arrival sorts
earlier, refuting the claim that the new round is placed after existing
equal-timestamp entries. -/
theorem insert_tie_counterexample :
    getTime rTieA = getTime rTieB ∧
      applyInserts [rTieA, rTieB] = [rTieB, rTieA] := by decide

/-- C10 amended: a QUEUED round is inserted after every entry with a
strictly smaller realtime timestamp and before every entry with a greater
or EQUAL timestamp: ties are broken with the later arrival sorting
earlier, because the back-to-front scan only passes entries it strictly
exceeds. -/
theorem insert_placement (pre rest : List RoundInfo) (n : RoundInfo)
    (hq : n.State = statesQUEUED)
    (hpre : ∀ e ∈ pre, getTime e < getTime n)
    (hrest : ∀ e ∈ rest, getTime n ≤ getTime e) :
    Insert (pre ++ rest) n = pre ++ n :: rest := by
  rw [Insert, if_pos hq, List.reverse_append,
    insertRev_append_of_ge pre.reverse
      (fun x hx => hrest x (List.mem_reverse.mp hx)),
    insertRev_of_all_lt (fun x hx => hpre x (List.mem_reverse.mp hx)),
    List.reverse_append, List.reverse_cons, List.reverse_reverse,
    List.reverse_reverse, List.append_assoc, List.singleton_append]

/-- Witness for the amended C10 theorem: a round with timestamp 7 lands
after the timestamp-1 entry and before both existing timestamp-7 entries. -/
theorem insert_placement_witness :
    (RoundInfo.mk 23 statesQUEUED [0, 0, 0, 0, 7]).State = statesQUEUED ∧
      (∀ e ∈ [RoundInfo.mk 20 statesQUEUED [0, 0, 0, 0, 1]],
        getTime e < getTime (RoundInfo.mk 23 statesQUEUED [0, 0, 0, 0, 7])) ∧
      (∀ e ∈ [rTieA, rTieB],
        getTime (RoundInfo.mk 23 statesQUEUED [0, 0, 0, 0, 7]) ≤ getTime e) ∧
      Insert ([RoundInfo.mk 20 statesQUEUED [0, 0, 0, 0, 1]] ++ [rTieA, rTieB])
          (RoundInfo.mk 23 statesQUEUED [0, 0, 0, 0, 7]) =
        [RoundInfo.mk 20 statesQUEUED [0, 0, 0, 0, 1]] ++
          RoundInfo.mk 23 statesQUEUED [0, 0, 0, 0, 7] :: [rTieA, rTieB] :=
  ⟨by decide, by decide, by decide,
    insert_placement _ _ _ (by decide) (by decide) (by decide)⟩

end WaitingRounds

namespace WaitingRounds

-- ## Interleaving model of GetUpcomingRealtime
--
-- GetUpcomingRealtime(timeout) runs three threads of control:
--  * the waiter goroutine spawned at the top of the call, which locks the
--    condition lock, calls c.Wait(), and after being woken sends one value
--    on the buffered channel sig (capacity 1) and exits;
--  * the main body, which checks getFurthest once and, when that is nil,
--    loops selecting between the timeout timer and sig;
--  * concurrent Insert calls, which mutate the round list and call
--    c.Broadcast() on the QUEUED branch only.
-- Each scheduler step below is one atomic action of one thread;
-- a schedule is an arbitrary list of such actions.  Broadcast wakes the
-- goroutine only when it has already reached c.Wait().

-- Program counter of the waiter goroutine: before c.Wait(), parked in
-- c.Wait(), woken by a broadcast but not yet having sent on sig, done.
inductive GPC where
  | start
  | waiting
  | woken
  | fin
deriving DecidableEq

-- Program counter of the main body: before the initial getFurthest check,
-- in the select loop, returned.
inductive MPC where
  | init
  | loop
  | fin
deriving DecidableEq

-- The single error value timeOutError of waitingRounds.go.
inductive WRError where
  | timedOut
deriving DecidableEq

structure GURConfig where
  queue : List RoundInfo
  gpc : GPC
  sig : Bool
  timerFired : Bool
  mpc : MPC
  result : Option (Option RoundInfo × Option WRError)
deriving DecidableEq

-- One scheduler step: the goroutine reaching c.Wait(), the goroutine
-- sending on sig after a wakeup, a concurrent Insert call, the timeout
-- timer firing, the main body's initial check, and the two select arms.
inductive GUREvent where
  | goWait
  | goSend
  | insertRound (r : RoundInfo)
  | timerFire
  | mainCheck
  | mainTimer
  | mainSig
deriving DecidableEq

def step (c : GURConfig) : GUREvent → GURConfig
  | GUREvent.goWait =>
      if c.gpc = GPC.start then { c with gpc := GPC.waiting } else c
  | GUREvent.goSend =>
      if c.gpc = GPC.woken then { c with gpc := GPC.fin, sig := true } else c
  | GUREvent.insertRound r =>
      if r.State = statesQUEUED then
        -- the QUEUED branch of Insert broadcasts after mutating the list;
        -- the broadcast reaches the goroutine only if it is in c.Wait()
        if c.gpc = GPC.waiting then
          { c with queue := Insert c.queue r, gpc := GPC.woken }
        else { c with queue := Insert c.queue r }
      else { c with queue := Insert c.queue r }
  | GUREvent.timerFire => { c with timerFired := true }
  | GUREvent.mainCheck =>
      if c.mpc = MPC.init then
        match getFurthest c.queue with
        | some r =>
            { c with mpc := MPC.fin, result := some (some r, none) }
        | none => { c with mpc := MPC.loop }
      else c
  | GUREvent.mainTimer =>
      if c.mpc = MPC.loop ∧ c.timerFired then
        { c with mpc := MPC.fin,
                 result := some (none, some WRError.timedOut) }
      else c
  | GUREvent.mainSig =>
      if c.mpc = MPC.loop ∧ c.sig then
        match getFurthest c.queue with
        | some r =>
            { c with sig := false, mpc := MPC.fin,
                     result := some (some r, none) }
        | none => { c with sig := false }
      else c

-- The state at the moment GetUpcomingRealtime is entered on a
-- WaitingRounds currently holding queue q.
def initGUR (q : List RoundInfo) : GURConfig :=
  GURConfig.mk q GPC.start false false MPC.init none

def run (es : List GUREvent) (c : GURConfig) : GURConfig :=
  es.foldl step c

def NoInsert (es : List GUREvent) : Prop :=
  ∀ r, GUREvent.insertRound r ∉ es

-- Invariant driving the no-insert analysis: without Insert events the
-- queue stays empty, no signal is ever produced, and the only result the
-- call can produce is the timeout error.
def NoInsertInv (c : GURConfig) : Prop :=
  c.queue = [] ∧ c.sig = false ∧ c.gpc ≠ GPC.woken ∧
    (c.result = none ∨ c.result = some (none, some WRError.timedOut))

theorem noInsertInv_step {c : GURConfig} (e : GUREvent)
    (hinv : NoInsertInv c) (hni : ∀ r, e ≠ GUREvent.insertRound r) :
    NoInsertInv (step c e) := by
  obtain ⟨hq, hs, hg, hr⟩ := hinv
  cases e with
  | goWait =>
      rw [step]
      by_cases h : c.gpc = GPC.start
      · rw [if_pos h]
        exact ⟨hq, hs, by simp, hr⟩
      · rw [if_neg h]
        exact ⟨hq, hs, hg, hr⟩
  | goSend =>
      rw [step, if_neg hg]
      exact ⟨hq, hs, hg, hr⟩
  | insertRound r => exact absurd rfl (hni r)
  | timerFire =>
      rw [step]
      exact ⟨hq, hs, hg, hr⟩
  | mainCheck =>
      rw [step]
      by_cases h : c.mpc = MPC.init
      · rw [if_pos h, hq]
        have hfn : getFurthest ([] : List RoundInfo) = none := rfl
        rw [hfn]
        exact ⟨rfl, hs, hg, hr⟩
      · rw [if_neg h]
        exact ⟨hq, hs, hg, hr⟩
  | mainTimer =>
      rw [step]
      by_cases h : c.mpc = MPC.loop ∧ c.timerFired
      · rw [if_pos h]
        exact ⟨hq, hs, hg, Or.inr rfl⟩
      · rw [if_neg h]
        exact ⟨hq, hs, hg, hr⟩
  | mainSig =>
      rw [step]
      have h : ¬(c.mpc = MPC.loop ∧ c.sig) := by
        intro h
        rw [hs] at h
        exact Bool.false_ne_true h.2
      rw [if_neg h]
      exact ⟨hq, hs, hg, hr⟩

theorem noInsertInv_run {es : List GUREvent} :
    ∀ {c : GURConfig}, NoInsertInv c → (∀ r, GUREvent.insertRound r ∉ es) →
      NoInsertInv (run es c) := by
  induction es with
  | nil => intro c hinv _; exact hinv
  | cons e rest ih =>
      intro c hinv hni
      have he : ∀ r, e ≠ GUREvent.insertRound r := by
        intro r hcontra
        exact hni r (by rw [hcontra]; exact List.mem_cons_self _ _)
      have hrest : ∀ r, GUREvent.insertRound r ∉ rest := by
        intro r hcontra
        exact hni r (List.mem_cons_of_mem e hcontra)
      exact ih (noInsertInv_step e hinv he) hrest

/-- C4 (amended): starting from an empty queue, when no Insert occurs the
only outcomes of GetUpcomingRealtime are still-running or the nil round
paired with the timed-out error, and the timed-out error is the only
error value the operation has.  The original claim's guarantee that the
error never coexists with a qualifying round fails on the code (see the
counterexample): an Insert lost between the initial check and the waiter
reaching Wait leaves the call to time out with a round present. -/
theorem getUpcomingRealtime_timeout_semantics (es : List GUREvent)
    (hni : NoInsert es) :
    ((run es (initGUR [])).result = none ∨
      (run es (initGUR [])).result = some (none, some WRError.timedOut)) ∧
    (∀ err : WRError, err = WRError.timedOut) := by
  constructor
  · have hinv0 : NoInsertInv (initGUR []) :=
      ⟨rfl, rfl, by decide, Or.inl rfl⟩
    exact (noInsertInv_run hinv0 hni).2.2.2
  · intro err
    cases err
    rfl

/-- Witness for the amended C4 theorem: a schedule that checks, lets the
timer fire and takes the timer branch contains no Insert, so the theorem
applies to it. -/
theorem getUpcomingRealtime_timeout_semantics_witness :
    NoInsert [GUREvent.mainCheck, GUREvent.timerFire, GUREvent.mainTimer] ∧
      (((run [GUREvent.mainCheck, GUREvent.timerFire, GUREvent.mainTimer]
            (initGUR [])).result = none ∨
        (run [GUREvent.mainCheck, GUREvent.timerFire, GUREvent.mainTimer]
            (initGUR [])).result = some (none, some WRError.timedOut)) ∧
        (∀ err : WRError, err = WRError.timedOut)) :=
  have hni :
      NoInsert [GUREvent.mainCheck, GUREvent.timerFire, GUREvent.mainTimer] := by
    intro r hmem
    simp at hmem
  ⟨hni, getUpcomingRealtime_timeout_semantics _ hni⟩

-- A QUEUED round and the lost-wakeup schedule used to refute the original
-- C4 statement: the Insert lands after the main body's initial check but
-- before the waiter goroutine reaches c.Wait(), so its broadcast wakes
-- nobody and the call times out with the round sitting in the queue.
def rLost : RoundInfo := RoundInfo.mk 31 statesQUEUED [0, 0, 0, 0, 9]

def schedLost : List GUREvent :=
  [GUREvent.mainCheck, GUREvent.insertRound rLost, GUREvent.goWait,
    GUREvent.timerFire, GUREvent.mainTimer]

/-- C4 counterexample: under the schedule schedLost the call returns the
nil round with the timed-out error although the QUEUED round rLost is
present in the queue at the moment it returns, refuting the claim that
the error is never returned while a qualifying round is present. -/
theorem getUpcomingRealtime_error_with_round_present :
    (run schedLost (initGUR [])).result =
        some (none, some WRError.timedOut) ∧
      (run schedLost (initGUR [])).queue = [rLost] ∧
      rLost.State = statesQUEUED := by decide

-- The concrete lost wakeup exhibiting the C6 bug, with its own round and
-- schedule: Insert of a QUEUED round strictly after the call started
-- blocking (after its initial check) and strictly before the timer fired.
def rMissed : RoundInfo := RoundInfo.mk 32 statesQUEUED [0, 0, 0, 0, 11]

def schedMissed : List GUREvent :=
  [GUREvent.mainCheck, GUREvent.insertRound rMissed, GUREvent.goWait,
    GUREvent.timerFire, GUREvent.mainTimer]

/-- C6: the code loses this wakeup.  In the schedule schedMissed the
QUEUED round rMissed is inserted after the blocked call's initial
furthest-check and before its timeout, yet the broadcast fires while the
single-shot waiter goroutine has not reached Wait, so the signal channel
never receives a value and the call returns the timed-out error instead
of the inserted round, contradicting the no-lost-wakeup property. -/
theorem getUpcomingRealtime_lost_wakeup_bug :
    rMissed.State = statesQUEUED ∧
      (run schedMissed (initGUR [])).queue = [rMissed] ∧
      (run schedMissed (initGUR [])).result =
        some (none, some WRError.timedOut) ∧
      (run schedMissed (initGUR [])).result ≠ some (some rMissed, none) := by
  decide

theorem getTime_le_getLast :
    ∀ {l : List RoundInfo} {r : RoundInfo}, SortedLE l →
      l.getLast? = some r → ∀ e ∈ l, getTime e ≤ getTime r := by
  intro l
  induction l with
  | nil => intro r _ hlast; simp at hlast
  | cons a t ih =>
      intro r hs hlast e he
      cases t with
      | nil =>
          have hra : a = r := by simpa using hlast
          rw [List.mem_singleton] at he
          rw [he, hra]
      | cons b t2 =>
          rw [List.getLast?_cons_cons] at hlast
          rw [SortedLE, List.pairwise_cons] at hs
          rw [List.mem_cons] at he
          rcases he with he | he
          · subst he
            have hne : (b :: t2) ≠ [] := List.cons_ne_nil b t2
            have hrmem' : r ∈ b :: t2 := by
              rw [List.getLast?_eq_getLast_of_ne_nil hne,
                Option.some.injEq] at hlast
              rw [← hlast]
              exact List.getLast_mem hne
            exact hs.1 r hrmem'
          · exact ih hs.2 hlast e he

/-- C5: whenever the queue reached by a sequence of Insert calls is
non-empty, GetUpcomingRealtime returns from its initial check in a single
step, without error, the round getFurthest selects — the last element of
GetSlice, which carries the largest realtime timestamp in the queue. -/
theorem getUpcomingRealtime_returns_furthest (ops : List RoundInfo)
    (h : applyInserts ops ≠ []) :
    ∃ r, (run [GUREvent.mainCheck] (initGUR (applyInserts ops))).result =
          some (some r, none) ∧
        getFurthest (applyInserts ops) = some r ∧
        (GetSlice (applyInserts ops)).getLast? = some r ∧
        ∀ e ∈ applyInserts ops, getTime e ≤ getTime r := by
  obtain ⟨r, hlast⟩ : ∃ r, (applyInserts ops).getLast? = some r := by
    cases hc : (applyInserts ops).getLast? with
    | none => exact absurd (List.getLast?_eq_none_iff.mp hc) h
    | some r => exact ⟨r, rfl⟩
  refine ⟨r, ?_, hlast, hlast, ?_⟩
  · show (step (initGUR (applyInserts ops)) GUREvent.mainCheck).result =
      some (some r, none)
    rw [step, if_pos (show (initGUR (applyInserts ops)).mpc = MPC.init from rfl)]
    have hfu : getFurthest (initGUR (applyInserts ops)).queue = some r := hlast
    rw [hfu]
  · exact getTime_le_getLast (sortedLE_applyInserts ops) hlast

-- Concrete round for the C5 witness.
def rW5 : RoundInfo := RoundInfo.mk 41 statesQUEUED [0, 0, 0, 0, 13]

/-- Witness for C5: a queue holding one inserted QUEUED round is
non-empty and the call returns it immediately. -/
theorem getUpcomingRealtime_returns_furthest_witness :
    applyInserts [rW5] ≠ [] ∧
      (∃ r, (run [GUREvent.mainCheck] (initGUR (applyInserts [rW5]))).result =
            some (some r, none) ∧
          getFurthest (applyInserts [rW5]) = some r ∧
          (GetSlice (applyInserts [rW5])).getLast? = some r ∧
          ∀ e ∈ applyInserts [rW5], getTime e ≤ getTime r) :=
  ⟨by decide, getUpcomingRealtime_returns_furthest [rW5] (by decide)⟩

end WaitingRounds

namespace RoundEvents

-- ## RoundEvents (network/dataStructures/roundEvents.go)
--
-- The registry is callbacks : map[id.Round][states.NUM_STATES]
-- map[*eventCallback]*eventCallback.  An eventCallback is identified by
-- its pointer; the model gives each one a numeric identity eid standing
-- for that pointer, together with its bound trigger states.  The
-- [NUM_STATES] array of pointer-keyed maps is modelled as a function from
-- state index to the list of callbacks registered there, and the outer
-- map as an association list from round id to that function.  Callback
-- invocations (the sends through each subscription's capacity-1 signal
-- channel, and the timeout branch of the waiter goroutine) are recorded
-- as explicit Invocation values.

-- states.NUM_STATES from gitlab.com/elixxir/primitives/states.
def NUM_STATES : Nat := 7

structure EventCallback where
  eid : Nat
  states : List Nat
deriving DecidableEq

def StateBuckets : Type := Nat → List EventCallback

def Registry : Type := List (Nat × StateBuckets)

-- The zero value of [NUM_STATES]map[*eventCallback]*eventCallback.
def emptyBuckets : StateBuckets := fun _ => []

def lookupRound (r : Registry) (rid : Nat) : Option StateBuckets :=
  match r.find? (fun p => p.1 == rid) with
  | some p => some p.2
  | none => none

-- The callbacks registered for round rid under state s (empty when rid is
-- unmapped, matching Go's zero-value array of nil maps).
def lookupState (r : Registry) (rid s : Nat) : List EventCallback :=
  ((lookupRound r rid).getD emptyBuckets) s

def eraseRound (r : Registry) (rid : Nat) : Registry :=
  r.filter (fun p => p.1 != rid)

def setRound (r : Registry) (rid : Nat) (arr : StateBuckets) : Registry :=
  (rid, arr) :: eraseRound r rid

def updateBucket (arr : StateBuckets) (s : Nat)
    (v : List EventCallback) : StateBuckets :=
  fun s' => if s' = s then v else arr s'

-- delete(r.callbacks[rid][s], e): map deletion keyed by the pointer.
def deleteEC (l : List EventCallback) (e : EventCallback) :
    List EventCallback :=
  l.filter (fun x => x.eid != e.eid)

-- callbacks[s][thisEvent] = thisEvent: map insertion keyed by the pointer.
def insertEC (l : List EventCallback) (e : EventCallback) :
    List EventCallback :=
  e :: deleteEC l e

-- The loop `for _, s := range e.states { delete(r.callbacks[rid][s], e) }`.
def deleteFromStates (arr : StateBuckets) (e : EventCallback) :
    StateBuckets :=
  e.states.foldl (fun a s => updateBucket a s (deleteEC (a s) e)) arr

-- The removeRound check: every one of the NUM_STATES buckets is empty.
def allEmptyBuckets (arr : StateBuckets) : Bool :=
  (List.range NUM_STATES).all (fun s => (arr s).isEmpty)

-- RoundEvents.remove (also the body of the exported Remove): delete the
-- event from all its states' maps, then prune the round id entirely when
-- no callbacks are left in any state.
def remove (r : Registry) (rid : Nat) (e : EventCallback) : Registry :=
  match lookupRound r rid with
  | none => r
  | some arr =>
      let arr2 := deleteFromStates arr e
      if allEmptyBuckets arr2 then eraseRound r rid
      else setRound r rid arr2

-- The registry mutation of AddRoundEvent: fetch or create the round's
-- bucket array, then register the event under each of its valid states.
def AddRoundEvent (r : Registry) (rid : Nat) (e : EventCallback) :
    Registry :=
  let arr := (lookupRound r rid).getD emptyBuckets
  let arr2 := e.states.foldl (fun a s => updateBucket a s (insertEC (a s) e)) arr
  setRound r rid arr2

structure Invocation where
  ev : EventCallback
  ri : RoundInfo
  timedOut : Bool
deriving DecidableEq

-- RoundEvents.TriggerRoundEvent: look up the callbacks for ri.ID under
-- ri.State; when there are any, send ri to each one's signal channel
-- (the waiter then invokes callback(ri, false)) and remove every
-- signalled event.  Returns the new registry and the invocations.
def TriggerRoundEvent (r : Registry) (ri : RoundInfo) :
    Registry × List Invocation :=
  match lookupRound r ri.ID with
  | none => (r, [])
  | some arr =>
      let cbs := arr ri.State
      if cbs.isEmpty then (r, [])
      else (cbs.foldl (fun acc ev => remove acc ri.ID ev) r,
            cbs.map (fun ev => Invocation.mk ev ri false))

-- The timeout branch of the waiter goroutine spawned by AddRoundEvent:
-- ri := &pb.RoundInfo{ID: uint64(rid)}; go r.Remove(rid, thisEvent);
-- callback(ri, true).  The round info carries only the registered id —
-- State and Timestamps stay at their zero values.
def timeoutFire (r : Registry) (rid : Nat) (e : EventCallback) :
    Registry × List Invocation :=
  (remove r rid e, [Invocation.mk e (RoundInfo.mk rid 0 []) true])

theorem lookupRound_eraseRound_self (r : Registry) (rid : Nat) :
    lookupRound (eraseRound r rid) rid = none := by
  rw [lookupRound]
  have hf : (eraseRound r rid).find? (fun p => p.1 == rid) = none := by
    rw [List.find?_eq_none]
    intro p hp
    have hkeep := List.of_mem_filter hp
    simp only [bne_iff_ne, ne_eq] at hkeep
    simp only [beq_iff_eq]
    exact hkeep
  rw [hf]

theorem find?_eraseRound_ne (r : Registry) (rid rid2 : Nat)
    (h : rid2 ≠ rid) :
    (eraseRound r rid).find? (fun p => p.1 == rid2) =
      r.find? (fun p => p.1 == rid2) := by
  induction r with
  | nil => rfl
  | cons a t ih =>
      rw [eraseRound, List.filter_cons]
      by_cases ha : a.1 = rid
      · have hbne : (a.1 != rid) = false := by
          simp [ha]
        rw [if_neg (by rw [hbne]; exact Bool.false_ne_true)]
        have hpa : (a.1 == rid2) = false := by
          simp [ha]
          exact fun hcontra => h hcontra.symm
        rw [List.find?_cons_of_neg _ (by rw [hpa]; exact Bool.false_ne_true)]
        exact ih
      · have hbne : (a.1 != rid) = true := by simp [ha]
        rw [if_pos (by rw [hbne])]
        by_cases hpa : a.1 = rid2
        · rw [List.find?_cons_of_pos _ (by simp [hpa]),
            List.find?_cons_of_pos _ (by simp [hpa])]
        · rw [List.find?_cons_of_neg _ (by simp [hpa]),
            List.find?_cons_of_neg _ (by simp [hpa])]
          exact ih

theorem lookupRound_eraseRound_ne (r : Registry) (rid rid2 : Nat)
    (h : rid2 ≠ rid) :
    lookupRound (eraseRound r rid) rid2 = lookupRound r rid2 := by
  rw [lookupRound, lookupRound, find?_eraseRound_ne r rid rid2 h]

theorem lookupRound_setRound_self (r : Registry) (rid : Nat)
    (arr : StateBuckets) :
    lookupRound (setRound r rid arr) rid = some arr := by
  rw [lookupRound, setRound, List.find?_cons_of_pos _ (by simp)]

theorem lookupRound_setRound_ne (r : Registry) (rid rid2 : Nat)
    (arr : StateBuckets) (h : rid2 ≠ rid) :
    lookupRound (setRound r rid arr) rid2 = lookupRound r rid2 := by
  rw [lookupRound, lookupRound, setRound,
    List.find?_cons_of_neg _ (by simp; exact fun hc => h hc.symm),
    find?_eraseRound_ne r rid rid2 h]

theorem mem_deleteEC {l : List EventCallback} {e x : EventCallback}
    (hx : x ∈ deleteEC l e) : x ∈ l :=
  List.mem_of_mem_filter hx

theorem eid_ne_of_mem_deleteEC {l : List EventCallback}
    {e x : EventCallback} (hx : x ∈ deleteEC l e) : x.eid ≠ e.eid := by
  have := List.of_mem_filter hx
  simpa using this

-- The fold underlying deleteFromStates, over an arbitrary list of state
-- indices.
def deleteFold (e : EventCallback) (ss : List Nat) (arr : StateBuckets) :
    StateBuckets :=
  ss.foldl (fun a s => updateBucket a s (deleteEC (a s) e)) arr

theorem deleteFromStates_eq_deleteFold (arr : StateBuckets)
    (e : EventCallback) :
    deleteFromStates arr e = deleteFold e e.states arr := rfl

theorem mem_deleteFold {e : EventCallback} :
    ∀ (ss : List Nat) (arr : StateBuckets) (s : Nat)
      (x : EventCallback), x ∈ deleteFold e ss arr s → x ∈ arr s := by
  intro ss
  induction ss with
  | nil => intro arr s x hx; exact hx
  | cons t rest ih =>
      intro arr s x hx
      have hx' := ih (updateBucket arr t (deleteEC (arr t) e)) s x hx
      rw [updateBucket] at hx'
      by_cases hst : s = t
      · rw [if_pos hst] at hx'
        rw [hst]
        exact mem_deleteEC hx'
      · rwa [if_neg hst] at hx'

theorem eid_gone_deleteFold {e : EventCallback} :
    ∀ (ss : List Nat) (arr : StateBuckets) (s : Nat), s ∈ ss →
      ∀ x ∈ deleteFold e ss arr s, x.eid ≠ e.eid := by
  intro ss
  induction ss with
  | nil => intro arr s hs; simp at hs
  | cons t rest ih =>
      intro arr s hs x hx
      by_cases hmem : s ∈ rest
      · exact ih (updateBucket arr t (deleteEC (arr t) e)) s hmem x hx
      · have hst : s = t := by
          rw [List.mem_cons] at hs
          rcases hs with hs | hs
          · exact hs
          · exact absurd hs hmem
        have hx' : x ∈ updateBucket arr t (deleteEC (arr t) e) s :=
          mem_deleteFold rest _ s x hx
        rw [updateBucket, if_pos hst] at hx'
        exact eid_ne_of_mem_deleteEC hx'

theorem mem_lookupState_remove {R : Registry} {rid rid2 s : Nat}
    {e x : EventCallback} (hx : x ∈ lookupState (remove R rid e) rid2 s) :
    x ∈ lookupState R rid2 s := by
  cases hR : lookupRound R rid with
  | none =>
      have hrm : remove R rid e = R := by
        unfold remove
        rw [hR]
      rwa [hrm] at hx
  | some arr =>
      have hrm : remove R rid e =
          if allEmptyBuckets (deleteFromStates arr e) then eraseRound R rid
          else setRound R rid (deleteFromStates arr e) := by
        unfold remove
        rw [hR]
      rw [hrm] at hx
      by_cases hae : allEmptyBuckets (deleteFromStates arr e) = true
      · rw [if_pos hae] at hx
        by_cases hr2 : rid2 = rid
        · rw [lookupState, hr2, lookupRound_eraseRound_self] at hx
          simp [emptyBuckets] at hx
        · rwa [lookupState, lookupRound_eraseRound_ne R rid rid2 hr2] at hx
      · rw [if_neg hae] at hx
        by_cases hr2 : rid2 = rid
        · rw [lookupState, hr2, lookupRound_setRound_self] at hx
          have hx2 : x ∈ deleteFromStates arr e s := hx
          rw [deleteFromStates_eq_deleteFold] at hx2
          have hx3 : x ∈ arr s := mem_deleteFold e.states arr s x hx2
          rw [lookupState, hr2, hR]
          exact hx3
        · rwa [lookupState, lookupRound_setRound_ne R rid rid2 _ hr2] at hx

theorem eid_gone_remove {R : Registry} {rid s : Nat} {e : EventCallback}
    (hcons : ∀ x ∈ lookupState R rid s, x.eid = e.eid → s ∈ e.states) :
    ∀ x ∈ lookupState (remove R rid e) rid s, x.eid ≠ e.eid := by
  intro x hx hxe
  cases hR : lookupRound R rid with
  | none =>
      have hrm : remove R rid e = R := by
        unfold remove
        rw [hR]
      rw [hrm, lookupState, hR] at hx
      simp [emptyBuckets] at hx
  | some arr =>
      have hrm : remove R rid e =
          if allEmptyBuckets (deleteFromStates arr e) then eraseRound R rid
          else setRound R rid (deleteFromStates arr e) := by
        unfold remove
        rw [hR]
      rw [hrm] at hx
      by_cases hae : allEmptyBuckets (deleteFromStates arr e) = true
      · rw [if_pos hae, lookupState, lookupRound_eraseRound_self] at hx
        simp [emptyBuckets] at hx
      · rw [if_neg hae, lookupState, lookupRound_setRound_self] at hx
        have hx2 : x ∈ deleteFromStates arr e s := hx
        have hmemR : x ∈ lookupState R rid s := by
          rw [lookupState, hR]
          rw [deleteFromStates_eq_deleteFold] at hx2
          exact mem_deleteFold e.states arr s x hx2
        have hse : s ∈ e.states := hcons x hmemR hxe
        rw [deleteFromStates_eq_deleteFold] at hx2
        exact eid_gone_deleteFold e.states arr s hse x hx2 hxe

/-- C9: after a removal the registry maps the affected round id exactly
when at least one subscription remains registered for it under some
state: RoundEvents.remove prunes the round id entry the moment its last
subscription disappears, and keeps it otherwise. -/
theorem remove_prunes_round (R : Registry) (rid : Nat) (e : EventCallback) :
    (lookupRound (remove R rid e) rid).isSome = true ↔
      ∃ s, s < NUM_STATES ∧ lookupState (remove R rid e) rid s ≠ [] := by
  cases hR : lookupRound R rid with
  | none =>
      have hrm : remove R rid e = R := by
        unfold remove
        rw [hR]
      rw [hrm]
      constructor
      · intro h
        rw [hR] at h
        simp at h
      · intro ⟨s, _, hne⟩
        rw [lookupState, hR] at hne
        exact absurd rfl hne
  | some arr =>
      have hrm : remove R rid e =
          if allEmptyBuckets (deleteFromStates arr e) then eraseRound R rid
          else setRound R rid (deleteFromStates arr e) := by
        unfold remove
        rw [hR]
      rw [hrm]
      by_cases hae : allEmptyBuckets (deleteFromStates arr e) = true
      · rw [if_pos hae]
        constructor
        · intro h
          rw [lookupRound_eraseRound_self] at h
          simp at h
        · intro ⟨s, _, hne⟩
          rw [lookupState, lookupRound_eraseRound_self] at hne
          exact absurd rfl hne
      · rw [if_neg hae]
        constructor
        · intro _
          have hae2 : allEmptyBuckets (deleteFromStates arr e) = false :=
            Bool.not_eq_true _ |>.mp hae
          rw [allEmptyBuckets, List.all_eq_false] at hae2
          obtain ⟨s, hs, hne⟩ := hae2
          refine ⟨s, List.mem_range.mp hs, ?_⟩
          rw [lookupState, lookupRound_setRound_self]
          intro hnil
          have : (deleteFromStates arr e s).isEmpty = true := by
            rw [show deleteFromStates arr e s = [] from hnil]
            rfl
          rw [this] at hne
          exact hne rfl
        · intro _
          rw [lookupRound_setRound_self]
          rfl

theorem mem_lookupState_removeFold :
    ∀ (cbs : List EventCallback) (R : Registry) {rid rid2 s : Nat}
      {x : EventCallback},
      x ∈ lookupState (cbs.foldl (fun acc ev => remove acc rid ev) R) rid2 s →
      x ∈ lookupState R rid2 s := by
  intro cbs
  induction cbs with
  | nil => intro R rid rid2 s x hx; exact hx
  | cons ev rest ih =>
      intro R rid rid2 s x hx
      rw [List.foldl_cons] at hx
      exact mem_lookupState_remove (ih (remove R rid ev) hx)

theorem eid_gone_removeFold {e : EventCallback} :
    ∀ (cbs : List EventCallback) (R : Registry) (rid : Nat), e ∈ cbs →
      (∀ t, t < NUM_STATES → ∀ x ∈ lookupState R rid t,
        x.eid = e.eid → t ∈ e.states) →
      ∀ t, t < NUM_STATES →
        ∀ x ∈ lookupState (cbs.foldl (fun acc ev => remove acc rid ev) R)
            rid t, x.eid ≠ e.eid := by
  intro cbs
  induction cbs with
  | nil => intro R rid he; simp at he
  | cons ev rest ih =>
      intro R rid he hcons t ht x hx
      rw [List.foldl_cons] at hx
      by_cases hmem : e ∈ rest
      · have hcons' : ∀ u, u < NUM_STATES →
            ∀ y ∈ lookupState (remove R rid ev) rid u,
              y.eid = e.eid → u ∈ e.states := by
          intro u hu y hy hye
          exact hcons u hu y (mem_lookupState_remove hy) hye
        exact ih (remove R rid ev) rid hmem hcons' t ht x hx
      · have heq : e = ev := by
          rw [List.mem_cons] at he
          rcases he with he | he
          · exact he
          · exact absurd he hmem
        subst heq
        have hx' : x ∈ lookupState (remove R rid e) rid t :=
          mem_lookupState_removeFold rest (remove R rid e) hx
        exact eid_gone_remove (hcons t ht) x hx'

theorem count_eq_one_of_mem_pairwise {l : List EventCallback}
    {e : EventCallback} (hmem : e ∈ l)
    (hnd : l.Pairwise (fun a b => a.eid ≠ b.eid)) : l.count e = 1 := by
  induction l with
  | nil => simp at hmem
  | cons a t ih =>
      rw [List.pairwise_cons] at hnd
      rw [List.mem_cons] at hmem
      rcases hmem with he | he
      · subst he
        have hnot : e ∉ t := fun hmem' => (hnd.1 e hmem') rfl
        rw [List.count_cons_self, List.count_eq_zero_of_not_mem hnot]
      · have hne : e ≠ a := by
          intro hcontra
          exact (hnd.1 e he) (by rw [hcontra])
        rw [List.count_cons_of_ne hne, ih he hnd.2]

theorem count_map_invocation (cbs : List EventCallback) (e : EventCallback)
    (ri : RoundInfo) :
    (cbs.map (fun ev => Invocation.mk ev ri false)).count
        (Invocation.mk e ri false) = cbs.count e := by
  induction cbs with
  | nil => rfl
  | cons a t ih =>
      rw [List.map_cons, List.count_cons, List.count_cons, ih]
      by_cases h : e = a
      · rw [h, beq_self_eq_true, beq_self_eq_true]
      · have h1 : (Invocation.mk a ri false == Invocation.mk e ri false)
            = false := by
          rw [beq_eq_false_iff_ne]
          intro hc
          injection hc with hev hri hto
          exact h hev.symm
        have h2 : (a == e) = false :=
          beq_eq_false_iff_ne.mpr (fun hc => h hc.symm)
        rw [h1, h2]

/-- C8: when a subscription's trigger states never fire, the timeout
branch of the waiter spawned by AddRoundEvent fires the callback exactly
once, with timedOut true and a round info carrying only the registered
round id (State and Timestamps keep their zero values), and the
subscription is removed from every state bucket of that round id. -/
theorem timeout_fires_once_and_removes (R : Registry) (rid : Nat)
    (e : EventCallback)
    (hcons : ∀ s, s < NUM_STATES → ∀ x ∈ lookupState R rid s,
      x.eid = e.eid → s ∈ e.states) :
    (timeoutFire R rid e).2 =
        [Invocation.mk e (RoundInfo.mk rid 0 []) true] ∧
      ∀ s, s < NUM_STATES →
        ∀ x ∈ lookupState (timeoutFire R rid e).1 rid s, x.eid ≠ e.eid := by
  refine ⟨rfl, ?_⟩
  intro s hs x hx
  exact eid_gone_remove (hcons s hs) x hx

-- Registry holding one subscription (eid 5, states 2 and 3) for round 11.
def regW8 : Registry := AddRoundEvent [] 11 (EventCallback.mk 5 [2, 3])

/-- Witness for C8: a registry holding exactly one subscription for round
11 satisfies the consistency hypothesis and the timeout invocation and
removal behave as stated. -/
theorem timeout_fires_once_and_removes_witness :
    (∀ s, s < NUM_STATES → ∀ x ∈ lookupState regW8 11 s,
        x.eid = (EventCallback.mk 5 [2, 3]).eid →
          s ∈ (EventCallback.mk 5 [2, 3]).states) ∧
      ((timeoutFire regW8 11 (EventCallback.mk 5 [2, 3])).2 =
          [Invocation.mk (EventCallback.mk 5 [2, 3])
            (RoundInfo.mk 11 0 []) true] ∧
        ∀ s, s < NUM_STATES →
          ∀ x ∈ lookupState
              (timeoutFire regW8 11 (EventCallback.mk 5 [2, 3])).1 11 s,
            x.eid ≠ (EventCallback.mk 5 [2, 3]).eid) :=
  ⟨by decide, timeout_fires_once_and_removes regW8 11 _ (by decide)⟩

theorem triggerRoundEvent_of_none {R : Registry} {ri : RoundInfo}
    (h : lookupRound R ri.ID = none) : TriggerRoundEvent R ri = (R, []) := by
  unfold TriggerRoundEvent
  rw [h]

theorem triggerRoundEvent_of_empty {R : Registry} {ri : RoundInfo}
    {arr : StateBuckets} (h : lookupRound R ri.ID = some arr)
    (he : (arr ri.State).isEmpty = true) :
    TriggerRoundEvent R ri = (R, []) := by
  unfold TriggerRoundEvent
  rw [h]
  show (if (arr ri.State).isEmpty = true then (R, [])
      else ((arr ri.State).foldl (fun acc ev => remove acc ri.ID ev) R,
        (arr ri.State).map (fun ev => Invocation.mk ev ri false))) = (R, [])
  rw [if_pos he]

theorem triggerRoundEvent_of_firing {R : Registry} {ri : RoundInfo}
    {arr : StateBuckets} (h : lookupRound R ri.ID = some arr)
    (he : (arr ri.State).isEmpty ≠ true) :
    TriggerRoundEvent R ri =
      ((arr ri.State).foldl (fun acc ev => remove acc ri.ID ev) R,
        (arr ri.State).map (fun ev => Invocation.mk ev ri false)) := by
  unfold TriggerRoundEvent
  rw [h]
  show (if (arr ri.State).isEmpty = true then (R, [])
      else ((arr ri.State).foldl (fun acc ev => remove acc ri.ID ev) R,
        (arr ri.State).map (fun ev => Invocation.mk ev ri false))) = _
  rw [if_neg he]

/-- C2: a TriggerRoundEvent whose round id and state match a registered
subscription delivers to that subscription exactly once, every delivery
of the call carries timedOut false, the subscription is removed from all
the round's state buckets, and an identical second TriggerRoundEvent
delivers nothing to it. -/
theorem trigger_single_fire (R : Registry) (rid s : Nat)
    (e : EventCallback) (ri : RoundInfo)
    (hid : ri.ID = rid) (hst : ri.State = s) (hs : s < NUM_STATES)
    (hmem : e ∈ lookupState R rid s)
    (hnd : (lookupState R rid s).Pairwise (fun a b => a.eid ≠ b.eid))
    (hcons : ∀ t, t < NUM_STATES → ∀ x ∈ lookupState R rid t,
      x.eid = e.eid → t ∈ e.states) :
    ((TriggerRoundEvent R ri).2.count (Invocation.mk e ri false) = 1) ∧
      (∀ inv ∈ (TriggerRoundEvent R ri).2, inv.timedOut = false) ∧
      (∀ t, t < NUM_STATES →
        ∀ x ∈ lookupState (TriggerRoundEvent R ri).1 rid t,
          x.eid ≠ e.eid) ∧
      (∀ inv ∈ (TriggerRoundEvent (TriggerRoundEvent R ri).1 ri).2,
        inv.ev.eid ≠ e.eid) := by
  subst hid
  subst hst
  cases hR : lookupRound R ri.ID with
  | none =>
      rw [lookupState, hR] at hmem
      simp [emptyBuckets] at hmem
  | some arr =>
      have hls : lookupState R ri.ID ri.State = arr ri.State := by
        rw [lookupState, hR]
        rfl
      have hmem' : e ∈ arr ri.State := by rwa [hls] at hmem
      have hnd' : (arr ri.State).Pairwise (fun a b => a.eid ≠ b.eid) := by
        rwa [hls] at hnd
      have hne : (arr ri.State).isEmpty ≠ true := by
        cases harr : arr ri.State with
        | nil => rw [harr] at hmem'; simp at hmem'
        | cons a t => simp
      have hTRE := triggerRoundEvent_of_firing hR hne
      have hgoneAll : ∀ t, t < NUM_STATES →
          ∀ x ∈ lookupState (TriggerRoundEvent R ri).1 ri.ID t,
            x.eid ≠ e.eid := by
        intro t ht x hx
        rw [hTRE] at hx
        exact eid_gone_removeFold (arr ri.State) R ri.ID hmem' hcons t ht x hx
      refine ⟨?_, ?_, hgoneAll, ?_⟩
      · rw [hTRE, count_map_invocation]
        exact count_eq_one_of_mem_pairwise hmem' hnd'
      · intro inv hinv
        rw [hTRE, List.mem_map] at hinv
        obtain ⟨ev, _, hev⟩ := hinv
        rw [← hev]
      · intro inv hinv
        cases hR2 : lookupRound (TriggerRoundEvent R ri).1 ri.ID with
        | none =>
            rw [triggerRoundEvent_of_none hR2] at hinv
            simp at hinv
        | some arr2 =>
            have hls2 : lookupState (TriggerRoundEvent R ri).1 ri.ID
                ri.State = arr2 ri.State := by
              rw [lookupState, hR2]
              rfl
            by_cases hemp : (arr2 ri.State).isEmpty = true
            · rw [triggerRoundEvent_of_empty hR2 hemp] at hinv
              simp at hinv
            · rw [triggerRoundEvent_of_firing hR2 hemp,
                List.mem_map] at hinv
              obtain ⟨ev, hev_mem, hev⟩ := hinv
              have hne2 : ev.eid ≠ e.eid := by
                apply hgoneAll ri.State hs
                rw [hls2]
                exact hev_mem
              rw [← hev]
              exact hne2

-- Registry holding one subscription (eid 0, trigger state QUEUED = 3)
-- for round 10, and the matching QUEUED round info, following the spec's
-- single-fire scenario.
def regW2 : Registry := AddRoundEvent [] 10 (EventCallback.mk 0 [3])

def riW2 : RoundInfo := RoundInfo.mk 10 3 []

/-- Witness for C2: the spec's scenario — one subscription for round 10
on state QUEUED, triggered by round 10 in state QUEUED — satisfies every
hypothesis, so the single-fire theorem applies to it. -/
theorem trigger_single_fire_witness :
    (riW2.ID = 10 ∧ riW2.State = 3 ∧ 3 < NUM_STATES ∧
      EventCallback.mk 0 [3] ∈ lookupState regW2 10 3 ∧
      (lookupState regW2 10 3).Pairwise (fun a b => a.eid ≠ b.eid) ∧
      (∀ t, t < NUM_STATES → ∀ x ∈ lookupState regW2 10 t,
        x.eid = (EventCallback.mk 0 [3]).eid →
          t ∈ (EventCallback.mk 0 [3]).states)) ∧
      (((TriggerRoundEvent regW2 riW2).2.count
          (Invocation.mk (EventCallback.mk 0 [3]) riW2 false) = 1) ∧
        (∀ inv ∈ (TriggerRoundEvent regW2 riW2).2, inv.timedOut = false) ∧
        (∀ t, t < NUM_STATES →
          ∀ x ∈ lookupState (TriggerRoundEvent regW2 riW2).1 10 t,
            x.eid ≠ (EventCallback.mk 0 [3]).eid) ∧
        (∀ inv ∈ (TriggerRoundEvent (TriggerRoundEvent regW2 riW2).1
            riW2).2, inv.ev.eid ≠ (EventCallback.mk 0 [3]).eid)) :=
  ⟨⟨by decide, by decide, by decide, by decide, by decide, by decide⟩,
    trigger_single_fire regW2 10 3 (EventCallback.mk 0 [3]) riW2
      (by decide) (by decide) (by decide) (by decide) (by decide)
      (by decide)⟩

end RoundEvents

end ElixxirComms
